import Mathlib

/-! Verification of the chatbox2md conversion pipeline: a shallow embedding of the
timestamp normalizer, the markdown renderer, the filename sanitizer and builders,
and the Cherry Studio adapter, together with theorems settling the specification
claims about them. -/

/-- Raw timestamp values as they appear in the JSON input, as seen by the
JavaScript `new Date(timestamp)` constructor: a numeric epoch-millis value, a
date string that parses to a given instant (epoch millis), an unparsable
nonempty string, or a missing (undefined) value. -/
inductive RawTs where
  | millis (n : Int)
  | dateStr (n : Int)
  | unparsable
  | missing
deriving DecidableEq, Repr

/-- The instant a raw timestamp parses to, if any (models `new Date(t)` plus the
`isNaN` check of `isValidTimestamp`). -/
def parseRaw : RawTs → Option Int
  | RawTs.millis n => some n
  | RawTs.dateStr n => some n
  | RawTs.unparsable => none
  | RawTs.missing => none

/-- JavaScript truthiness of a raw timestamp value: the number 0 and undefined
are falsy, nonempty strings are truthy. -/
def rawTruthy : RawTs → Bool
  | RawTs.millis n => n != 0
  | RawTs.dateStr _ => true
  | RawTs.unparsable => true
  | RawTs.missing => false

/-- Model of `isValidTimestamp` from convert.js line 31: the value parses and the parsed
instant is not later than the current time. -/
def isValidTimestamp (now : Int) (t : RawTs) : Bool :=
  match parseRaw t with
  | some d => decide (d ≤ now)
  | none => false

/-- Model of `getSafeTimestamp` from convert.js line 37: return the raw value unchanged
when valid, otherwise `Date.now()` (the current time in epoch millis). -/
def getSafeTimestamp (now : Int) (t : RawTs) : RawTs :=
  if isValidTimestamp now t then t else RawTs.millis now

/-- The instant obtained by `new Date(getSafeTimestamp(t))`; total because the
safe timestamp always parses. -/
def safeInstant (now : Int) (t : RawTs) : Int :=
  match parseRaw (getSafeTimestamp now t) with
  | some d => d
  | none => now

/-- C1: the timestamp normalizer returns a timestamp that parses and is not
later than the current time unchanged; for an unparsable or missing timestamp,
or one later than the current time, it returns the current wall-clock time (the
`now` parameter at the moment of the call), never a fixed epoch. -/
theorem c1_get_safe_timestamp (now : Int) (t : RawTs) :
    (∀ d : Int, parseRaw t = some d → d ≤ now → getSafeTimestamp now t = t) ∧
    (parseRaw t = none → getSafeTimestamp now t = RawTs.millis now) ∧
    (∀ d : Int, parseRaw t = some d → now < d → getSafeTimestamp now t = RawTs.millis now) := by
  refine ⟨?_, ?_, ?_⟩
  · intro d hp hd
    simp [getSafeTimestamp, isValidTimestamp, hp, hd]
  · intro hp
    simp [getSafeTimestamp, isValidTimestamp, hp]
  · intro d hp hd
    simp [getSafeTimestamp, isValidTimestamp, hp, not_le.mpr hd]

/-- Witness for C1 at concrete inputs: a valid past timestamp is kept, an
unparsable one and a future one are both replaced by the current time. -/
theorem c1_witness :
    getSafeTimestamp 100 (RawTs.millis 50) = RawTs.millis 50 ∧
    getSafeTimestamp 100 RawTs.unparsable = RawTs.millis 100 ∧
    getSafeTimestamp 100 (RawTs.millis 200) = RawTs.millis 100 :=
  ⟨(c1_get_safe_timestamp 100 (RawTs.millis 50)).1 50 rfl (by decide),
   (c1_get_safe_timestamp 100 RawTs.unparsable).2.1 rfl,
   (c1_get_safe_timestamp 100 (RawTs.millis 200)).2.2 200 rfl (by decide)⟩

/-- The ambient clock and local-timezone calendar of the running process: `now`
is `Date.now()`, and the five component functions model the `Date` getters
(`getFullYear`, `getMonth`, `getDate`, `getHours`, `getMinutes`) applied to an
instant in the process's local time zone. -/
structure Env where
  now : Int
  getFullYear : Int → Nat
  getMonth : Int → Nat
  getDate : Int → Nat
  getHours : Int → Nat
  getMinutes : Int → Nat

/-- The JavaScript idiom `String(n).padStart(2, '0')`. -/
def padStart2 (n : Nat) : String :=
  let s := toString n
  if s.length < 2 then "0" ++ s else s

/-- Model of `formatMessageDateTime` from convert.js line 64: the derived display pair
`(YYYY-MM-DD, HH:MM)` of the safe timestamp. -/
def formatMessageDateTime (env : Env) (t : RawTs) : String × String :=
  let d := safeInstant env.now t
  (toString (env.getFullYear d) ++ "-" ++ padStart2 (env.getMonth d + 1) ++ "-" ++
     padStart2 (env.getDate d),
   padStart2 (env.getHours d) ++ ":" ++ padStart2 (env.getMinutes d))

/-- Model of `formatDate` from convert.js line 41: the `YYYY-MM-DD_HHMM` prefix of the
safe timestamp. -/
def formatDate (env : Env) (t : RawTs) : String :=
  let d := safeInstant env.now t
  toString (env.getFullYear d) ++ "-" ++ padStart2 (env.getMonth d + 1) ++ "-" ++
    padStart2 (env.getDate d) ++ "_" ++ padStart2 (env.getHours d) ++ padStart2 (env.getMinutes d)

/-- A link entry `{title, url}`; either field may be absent. -/
structure Link where
  title : Option String
  url : Option String
deriving DecidableEq, Repr

/-- A message as consumed by `convertChatToMarkdown`: `role` is `none` when the
field is missing or not a string; `content` is `none` when absent; attachment
arrays are modelled by their lengths; `links` entries may be null; `webBrowsing`
is `none` when it or its `links` field is missing. -/
structure Msg where
  role : Option String
  content : Option String
  timestamp : Option RawTs
  model : Option String
  pictures : Nat
  files : Nat
  links : List (Option Link)
  webBrowsing : Option (List (Option Link))
deriving DecidableEq, Repr

/-- A chat object handed to the renderer; `messages` is `none` when the field is
missing or not an array. -/
structure Chat where
  messages : Option (List (Option Msg))
deriving DecidableEq, Repr

/-- The JavaScript string-default idiom `o || d` (the empty string is falsy). -/
def strOr (o : Option String) (d : String) : String :=
  match o with
  | some s => if s = "" then d else s
  | none => d

/-- The default `msg.content || ''` from convert.js line 108. -/
def contentOf (msg : Msg) : String := strOr msg.content ""

/-- ASCII uppercasing, modelling `String.prototype.toUpperCase` on the role
strings that occur. -/
def upperStr (s : String) : String := String.mk (s.data.map Char.toUpper)

/-- ASCII lowercasing, modelling `String.prototype.toLowerCase`. -/
def lowerStr (s : String) : String := String.mk (s.data.map Char.toLower)

/-- One string appended to the output by `convertChatToMarkdown`, tagged by the
statement in the source that appends it. -/
inductive Seg where
  | dateHeading (date : String)
  | systemFence (content : String)
  | roleHeading (label : String) (time : String)
  | contentLine (content : String)
  | picturesMarker
  | filesMarker
  | linksMarker
  | linkLine (label : String) (url : String)
  | webLinksMarker
  | webLinkLine (label : String) (url : String)
  | msgSep
deriving DecidableEq, Repr

/-- The literal text each appended segment contributes to the output string. -/
def Seg.text : Seg → String
  | Seg.dateHeading d => "## " ++ d ++ "\n\n"
  | Seg.systemFence c => "```system\n" ++ c ++ "\n```\n\n"
  | Seg.roleHeading label time => "### " ++ label ++ " | " ++ time ++ "\n"
  | Seg.contentLine c => c ++ "\n"
  | Seg.picturesMarker => "\n{pictures}\n"
  | Seg.filesMarker => "\n{files}\n"
  | Seg.linksMarker => "\n{links}\n"
  | Seg.linkLine label url => "[" ++ label ++ "](" ++ url ++ ")\n"
  | Seg.webLinksMarker => "\n{web search links}\n"
  | Seg.webLinkLine label url => "- [" ++ label ++ "](" ++ url ++ ")\n"
  | Seg.msgSep => "\n"

/-- The label `link.title || link.url` of a link whose url is the nonempty
string `u`. -/
def linkLabel (l : Link) (u : String) : String :=
  match l.title with
  | some t => if t = "" then u else t
  | none => u

/-- convert.js lines 136-141: a link entry renders one markdown link line when
the entry is non-null and its url is truthy, and nothing otherwise. -/
def renderLink : Option Link → Option Seg
  | none => none
  | some l =>
    match l.url with
    | some u => if u = "" then none else some (Seg.linkLine (linkLabel l u) u)
    | none => none

/-- convert.js lines 146-151: same as `renderLink` but as a markdown bullet, for
the web-browsing links. -/
def renderWebLink : Option Link → Option Seg
  | none => none
  | some l =>
    match l.url with
    | some u => if u = "" then none else some (Seg.webLinkLine (linkLabel l u) u)
    | none => none

/-- Whether a link entry is non-null and carries a truthy url. -/
def linkHasUrl : Option Link → Bool
  | none => false
  | some l =>
    match l.url with
    | some u => u != ""
    | none => false

/-- convert.js lines 126-128: the pictures placeholder. -/
def picSegs (msg : Msg) : List Seg :=
  if msg.pictures > 0 then [Seg.picturesMarker] else []

/-- convert.js lines 130-132: the files placeholder. -/
def fileSegs (msg : Msg) : List Seg :=
  if msg.files > 0 then [Seg.filesMarker] else []

/-- convert.js lines 134-142: the links marker followed by one line per
renderable entry, emitted only when the links array is non-empty. -/
def linkSegs (msg : Msg) : List Seg :=
  if msg.links.length > 0 then Seg.linksMarker :: msg.links.filterMap renderLink else []

/-- convert.js lines 144-152: the web-search-links marker and bullets. -/
def webSegs (msg : Msg) : List Seg :=
  match msg.webBrowsing with
  | some ls => if ls.length > 0 then Seg.webLinksMarker :: ls.filterMap renderWebLink else []
  | none => []

/-- convert.js lines 114-122: the heading label is the assistant's model when
present and truthy, otherwise the uppercased role. -/
def headingLabel (roleUp : String) (msg : Msg) : String :=
  if roleUp = "ASSISTANT" then
    match msg.model with
    | some m => if m = "" then "ASSISTANT" else m
    | none => "ASSISTANT"
  else roleUp

/-- convert.js line 97: `msg.timestamp ? getSafeTimestamp(msg.timestamp) :
Date.now()`. -/
def effTimestamp (env : Env) (msg : Msg) : RawTs :=
  match msg.timestamp with
  | some t => if rawTruthy t then getSafeTimestamp env.now t else RawTs.millis env.now
  | none => RawTs.millis env.now

/-- The date display string of a message, as computed at convert.js line 98. -/
def msgDate (env : Env) (msg : Msg) : String :=
  (formatMessageDateTime env (effTimestamp env msg)).1

/-- The time display string of a message, as computed at convert.js line 98. -/
def msgTime (env : Env) (msg : Msg) : String :=
  (formatMessageDateTime env (effTimestamp env msg)).2

/-- convert.js lines 110-152: the body of one message, after the optional date
heading and before the per-message separator. -/
def msgBody (env : Env) (msg : Msg) (r : String) : List Seg :=
  if upperStr r = "SYSTEM" then
    [Seg.systemFence (contentOf msg)]
  else
    Seg.roleHeading (headingLabel (upperStr r) msg) (msgTime env msg) ::
      Seg.contentLine (contentOf msg) ::
      (picSegs msg ++ fileSegs msg ++ linkSegs msg ++ webSegs msg)

/-- The message loop of `convertChatToMarkdown` (convert.js lines 88-156),
threading the `lastDate` cursor: a null message or one whose role is missing is
skipped; otherwise a date heading is emitted when the message's date differs
from the cursor, then the body and the separator. -/
def renderMsgs (env : Env) : String → List (Option Msg) → List Seg
  | _, [] => []
  | last, m :: rest =>
    match m with
    | none => renderMsgs env last rest
    | some msg =>
      match msg.role with
      | none => renderMsgs env last rest
      | some r =>
        if msgDate env msg = last then
          msgBody env msg r ++ [Seg.msgSep] ++ renderMsgs env last rest
        else
          Seg.dateHeading (msgDate env msg) ::
            (msgBody env msg r ++ [Seg.msgSep] ++ renderMsgs env (msgDate env msg) rest)

/-- Concatenation of the appended segments into the output string. -/
def joinSegs (segs : List Seg) : String := String.join (segs.map Seg.text)

/-- Model of `convertChatToMarkdown` from convert.js line 77: a missing chat or a missing
messages array yields the warning comment document; otherwise the rendered
messages. -/
def convertChatToMarkdown (env : Env) (chat : Option Chat) : String :=
  match chat with
  | none => "<!-- Warning: No messages found or invalid format -->\n"
  | some c =>
    match c.messages with
    | none => "<!-- Warning: No messages found or invalid format -->\n"
    | some msgs => joinSegs (renderMsgs env "" msgs)

/-- The character class `[a-zA-Z0-9-_]` kept by `sanitizeFileName`. -/
def validChar (c : Char) : Bool := c.isAlpha || c.isDigit || c == '-' || c == '_'

/-- The step `.replace(/[^a-zA-Z0-9-_]/g, '_')` from convert.js line 53. -/
def replaceInvalid (l : List Char) : List Char :=
  l.map (fun c => if validChar c then c else '_')

/-- The step `.replace(/_+/g, '_')` from convert.js line 54: collapse each run of
underscores to a single underscore. -/
def collapseU : List Char → List Char
  | [] => []
  | [c] => [c]
  | c :: d :: rest =>
    if c = '_' ∧ d = '_' then collapseU (d :: rest) else c :: collapseU (d :: rest)

/-- The leading-underscore half of `.replace(/^_+|_+$/g, '')`. -/
def dropLeadU (l : List Char) : List Char := l.dropWhile (fun c => c == '_')

/-- The trailing-underscore half of `.replace(/^_+|_+$/g, '')`. -/
def dropTrailU : List Char → List Char
  | [] => []
  | c :: rest =>
    let r := dropTrailU rest
    if r = [] ∧ c = '_' then [] else c :: r

/-- The step `.replace(/^_+|_+$/g, '')` from convert.js line 55. -/
def trimU (l : List Char) : List Char := dropTrailU (dropLeadU l)

/-- The three replace steps of `sanitizeFileName` (convert.js lines 52-55). -/
def sanitizeCore (l : List Char) : List Char := trimU (collapseU (replaceInvalid l))

/-- convert.js lines 57-59: truncate to the maximum length when longer. -/
def truncateTo (maxLength : Nat) (l : List Char) : List Char :=
  if l.length > maxLength then l.take maxLength else l

/-- Model of `sanitizeFileName` from convert.js line 51 (identical at line 49 of the
earlier script): replace characters outside `[a-zA-Z0-9-_]` with underscores,
collapse runs of underscores, trim leading and trailing underscores, truncate to
`maxLength`, and fall back to the fixed placeholder when empty. -/
def sanitizeFileName (name : String) (maxLength : Nat) : String :=
  if truncateTo maxLength (sanitizeCore name.data) = [] then "unnamed_chat"
  else String.mk (truncateTo maxLength (sanitizeCore name.data))

/-- A chatbox chat session as consumed by `main` of the earlier script (lines
203-208): a `name` or `threadName` and a messages array. -/
structure SessionA where
  name : Option String
  threadName : Option String
  messages : List Msg
deriving DecidableEq, Repr

/-- The access `chat.messages[0]?.timestamp`: the first message's timestamp when both
exist. -/
def firstTimestamp (msgs : List Msg) : Option RawTs :=
  match msgs.head? with
  | some m => m.timestamp
  | none => none

/-- The normalizer applied to a possibly-undefined argument (an undefined
timestamp is unparsable, so it falls back to the current time). -/
def getSafeTimestampOpt (now : Int) (t : Option RawTs) : RawTs :=
  match t with
  | some ts => getSafeTimestamp now ts
  | none => RawTs.millis now

/-- The output file name built by `main` of the earlier script (lines 203-208):
`formatDate(getSafeTimestamp(first timestamp) || Date.now())` then an
underscore, the sanitized `chat.name || chat.threadName || 'unnamed_chat'`, and
the `.md` extension. -/
def buildFileName (env : Env) (chat : SessionA) : String :=
  let g := getSafeTimestampOpt env.now (firstTimestamp chat.messages)
  let ts := if rawTruthy g then g else RawTs.millis env.now
  let chatName := strOr chat.name (strOr chat.threadName "unnamed_chat")
  formatDate env ts ++ "_" ++ sanitizeFileName chatName 50 ++ ".md"

/-- The character class `[<>:"/\\|?*.\s]` replaced by `saveChatsToMarkdown` in
convert.js line 406. -/
def badFileChar (c : Char) : Bool :=
  c == '<' || c == '>' || c == ':' || c == '"' || c == '/' || c == '\\' || c == '|' ||
    c == '?' || c == '*' || c == '.' || c.isWhitespace

/-- The step `.replace(/[<>:"/\\|?*.\s]+/g, '_')`: each maximal run of characters from
the class becomes one underscore. -/
def replaceRunsBad : List Char → List Char
  | [] => []
  | [c] => if badFileChar c then ['_'] else [c]
  | c :: d :: rest =>
    if badFileChar c ∧ badFileChar d then replaceRunsBad (d :: rest)
    else (if badFileChar c then '_' else c) :: replaceRunsBad (d :: rest)

/-- The ad-hoc title sanitizer inlined in `saveChatsToMarkdown` (convert.js line
406): replace runs of the bad characters, truncate to 50, placeholder when
empty. It does not collapse or trim pre-existing underscores and keeps every
character outside its small class. -/
def stubSafeTitle (title : String) : String :=
  let t := (replaceRunsBad title.data).take 50
  if t = [] then "unnamed_chat" else String.mk t

/-- The `YYYY-MM-DD_HHMM` prefix computed by `saveChatsToMarkdown` (convert.js
lines 402-405): the raw first-message timestamp (without `getSafeTimestamp`),
falling back to the current time only when missing or falsy; an unparsable
timestamp yields the NaN component strings. -/
def stubDatePrefix (env : Env) (msgs : List Msg) : String :=
  let ts : RawTs :=
    match msgs.head? with
    | some m =>
      match m.timestamp with
      | some t => if rawTruthy t then t else RawTs.millis env.now
      | none => RawTs.millis env.now
    | none => RawTs.millis env.now
  match parseRaw ts with
  | some d =>
    toString (env.getFullYear d) ++ "-" ++ padStart2 (env.getMonth d + 1) ++ "-" ++
      padStart2 (env.getDate d) ++ "_" ++ padStart2 (env.getHours d) ++ padStart2 (env.getMinutes d)
  | none => "NaN-NaN-NaN_NaNNaN"

/-- The file name produced by `saveChatsToMarkdown` in convert.js line 407. -/
def saveChatsFileName (env : Env) (title : String) (msgs : List Msg) : String :=
  stubDatePrefix env msgs ++ "_" ++ stubSafeTitle title ++ ".md"

/-- One entry of the Cherry Studio `log` array. -/
structure LogEntry where
  role : Option String
  content : Option String
  timestamp : Option RawTs
deriving DecidableEq, Repr

/-- The parsed JSON payload of a Cherry Studio export: an optional `title` and
an optional `log` array (`none` when the field is missing or not an array). -/
structure Payload where
  title : Option String
  log : Option (List LogEntry)
deriving DecidableEq, Repr

/-- One entry of a Cherry Studio zip archive; `parsed` is `none` when the
entry's content is not valid JSON. -/
structure ZipEntry where
  entryName : String
  isDirectory : Bool
  parsed : Option Payload
deriving DecidableEq, Repr

/-- The input handed to `parseCherryStudio`: a zip archive, a direct JSON file
(`none` when its content is not valid JSON), or a file of another type. -/
inductive CherryInput where
  | zipArchive (entries : List ZipEntry)
  | jsonFile (parsed : Option Payload)
  | otherFile
deriving DecidableEq, Repr

/-- A canonical chat session produced by an adapter. -/
structure CSession where
  title : String
  messages : List Msg
deriving DecidableEq, Repr

/-- convert.js line 375: `(entry.role || 'unknown').toLowerCase() === 'you' ?
'user' : (entry.role || 'unknown').toLowerCase()`. -/
def cherryRole (e : LogEntry) : String :=
  if lowerStr (strOr e.role "unknown") = "you" then "user"
  else lowerStr (strOr e.role "unknown")

/-- The message object built for one Cherry Studio log entry: role and content
strings plus an ISO timestamp string that parses back to the given instant. -/
def mkCherryMsg (role content : String) (instant : Int) : Msg :=
  ⟨some role, some content, some (RawTs.dateStr instant), none, 0, 0, [], none⟩

/-- convert.js lines 374-378: map one log entry to a message. A truthy
timestamp is passed through `new Date(...).toISOString()`, which throws on an
unparsable value; a missing or falsy timestamp becomes the current time. -/
def cherryEntryToMsg (now : Int) (e : LogEntry) : Except String Msg :=
  match e.timestamp with
  | some t =>
    if rawTruthy t then
      match parseRaw t with
      | some d => Except.ok (mkCherryMsg (cherryRole e) (strOr e.content "") d)
      | none => Except.error "Invalid time value"
    else Except.ok (mkCherryMsg (cherryRole e) (strOr e.content "") now)
  | none => Except.ok (mkCherryMsg (cherryRole e) (strOr e.content "") now)

/-- convert.js lines 370-384: one session from the payload's `log` array, or
zero sessions plus a warning when there is no such array. -/
def cherryFromPayload (now : Int) (title : String) (p : Payload) :
    Except String (List CSession × List String) :=
  match p.log with
  | some entries =>
    match entries.mapM (cherryEntryToMsg now) with
    | Except.ok msgs => Except.ok ([⟨title, msgs⟩], [])
    | Except.error e => Except.error e
  | none =>
    Except.ok ([], ["Could not find log array in the parsed Cherry Studio JSON data"])

/-- Whether `suffix` is a suffix of `s` (the `String.prototype.endsWith` check
of convert.js line 349, on the character level). -/
def strEndsWith (s suffix : String) : Bool :=
  decide (suffix.data = s.data.drop (s.data.length - suffix.data.length))

/-- The zip-entry selection predicate of convert.js line 349: the entry name
ends in `.json` and the entry is not a directory. -/
def isJsonEntry (e : ZipEntry) : Bool := strEndsWith e.entryName ".json" && !e.isDirectory

/-- The body of the try block of `parseCherryStudio` (convert.js lines 345-384):
pick the first JSON entry of a zip (warning plus zero sessions when there is
none), or the direct JSON payload, or warn on an unsupported file type; then
build the sessions, propagating any thrown error. -/
def parseCherryInner (now : Int) (defaultTitle : String) (input : CherryInput) :
    Except String (List CSession × List String) :=
  match input with
  | CherryInput.zipArchive entries =>
    match entries.find? isJsonEntry with
    | some e =>
      match e.parsed with
      | some p => cherryFromPayload now (strOr p.title defaultTitle) p
      | none => Except.error "JSON parse error"
    | none => Except.ok ([], ["No JSON file found in ZIP"])
  | CherryInput.jsonFile op =>
    match op with
    | some p => cherryFromPayload now (strOr p.title defaultTitle) p
    | none => Except.error "JSON parse error"
  | CherryInput.otherFile => Except.ok ([], ["Unsupported file type for Cherry Studio"])

/-- Model of `parseCherryStudio` with its catch-all handler (convert.js lines 386-389):
any error thrown inside is caught, logged, and turned into zero sessions. -/
def parseCherryStudio (now : Int) (defaultTitle : String) (input : CherryInput) :
    List CSession × List String :=
  match parseCherryInner now defaultTitle input with
  | Except.ok r => r
  | Except.error e => ([], [e])

/-- The dates of the date-heading segments of an output, in emission order. -/
def dateHeadings (segs : List Seg) : List String :=
  segs.filterMap (fun s =>
    match s with
    | Seg.dateHeading d => some d
    | _ => none)

/-- Whether a segment is a date heading. -/
def isDateHeading : Seg → Bool
  | Seg.dateHeading _ => true
  | _ => false

/-- The messages the renderer does not skip: non-null with a string role. -/
def validMsgs (msgs : List (Option Msg)) : List Msg :=
  msgs.filterMap (fun m =>
    match m with
    | some msg =>
      match msg.role with
      | some _ => some msg
      | none => none
    | none => none)

/-- The date display strings of the rendered messages, in order. -/
def datesOf (env : Env) (msgs : List (Option Msg)) : List String :=
  (validMsgs msgs).map (msgDate env)

/-- The subsequence of a list of dates at which the value differs from the
last-seen cursor, starting from the given cursor. -/
def changeList : String → List String → List String
  | _, [] => []
  | last, d :: rest => if d = last then changeList last rest else d :: changeList d rest

/-- C5: a message whose role is `system` up to case renders as its content
wrapped in a fenced code block tagged `system` (opening fence line, content,
closing fence) with no level-3 role heading, no model name and no time; only the
optional date heading and the message separator accompany the fence. -/
theorem c5_system_fence (env : Env) (last : String) (msg : Msg) (r : String)
    (rest : List (Option Msg)) (hr : msg.role = some r) (hs : upperStr r = "SYSTEM") :
    renderMsgs env last (some msg :: rest) =
      (if msgDate env msg = last then ([] : List Seg)
       else [Seg.dateHeading (msgDate env msg)]) ++
      [Seg.systemFence (contentOf msg), Seg.msgSep] ++
      renderMsgs env (if msgDate env msg = last then last else msgDate env msg) rest ∧
    Seg.text (Seg.systemFence (contentOf msg)) =
      "```system\n" ++ contentOf msg ++ "\n```\n\n" := by
  constructor
  · have hb : msgBody env msg r = [Seg.systemFence (contentOf msg)] := by
      simp [msgBody, hs]
    by_cases h : msgDate env msg = last
    · simp [renderMsgs, hr, h, hb]
    · simp [renderMsgs, hr, h, hb]
  · rfl

/-- Concrete clock and calendar used by the witnesses: an instant `d` falls in
year `2000 + d`, month 1, day `d`, at 00:00. -/
def env0 : Env :=
  ⟨100, fun d => d.toNat + 2000, fun _ => 0, fun d => d.toNat, fun _ => 0, fun _ => 0⟩

/-- A system-role message used by the C5 witness. -/
def sysMsg : Msg := ⟨some "System", some "ls -la", some (RawTs.millis 3), none, 0, 0, [], none⟩

/-- Witness for C5 at a concrete system message. -/
theorem c5_witness :
    renderMsgs env0 "" [some sysMsg] =
      (if msgDate env0 sysMsg = "" then ([] : List Seg)
       else [Seg.dateHeading (msgDate env0 sysMsg)]) ++
      [Seg.systemFence (contentOf sysMsg), Seg.msgSep] ++
      renderMsgs env0 (if msgDate env0 sysMsg = "" then "" else msgDate env0 sysMsg) [] ∧
    Seg.text (Seg.systemFence (contentOf sysMsg)) =
      "```system\n" ++ contentOf sysMsg ++ "\n```\n\n" :=
  c5_system_fence env0 "" sysMsg "System" [] rfl (by decide)

/-- C8: rendering skips a message lacking a role individually and continues
with the remaining messages, and a chat whose messages array is missing renders
the placeholder warning document instead of failing. -/
theorem c8_skip_and_placeholder :
    (∀ (env : Env) (c : Chat), c.messages = none →
      convertChatToMarkdown env (some c) =
        "<!-- Warning: No messages found or invalid format -->\n") ∧
    (∀ (env : Env) (last : String) (pre post : List (Option Msg)) (msg : Msg),
      msg.role = none →
      renderMsgs env last (pre ++ some msg :: post) = renderMsgs env last (pre ++ post)) := by
  constructor
  · intro env c hc
    simp [convertChatToMarkdown, hc]
  · intro env last pre post msg hm
    induction pre generalizing last with
    | nil => simp [renderMsgs, hm]
    | cons m pre ih =>
      cases m with
      | none => simpa [renderMsgs] using ih last
      | some msg2 =>
        cases hrole : msg2.role with
        | none => simpa [renderMsgs, hrole] using ih last
        | some r =>
          by_cases hd : msgDate env msg2 = last
          · simp [renderMsgs, hrole, hd, ih]
          · simp [renderMsgs, hrole, hd, ih]

/-- A message with no role, used by the C8 witness. -/
def noRoleMsg : Msg := ⟨none, some "x", none, none, 0, 0, [], none⟩

/-- Witness for C8: the placeholder document for a chat with no messages array,
and the skipping of a concrete role-less message. -/
theorem c8_witness :
    convertChatToMarkdown env0 (some ⟨none⟩) =
      "<!-- Warning: No messages found or invalid format -->\n" ∧
    renderMsgs env0 "" ([some sysMsg] ++ some noRoleMsg :: []) =
      renderMsgs env0 "" ([some sysMsg] ++ []) :=
  ⟨c8_skip_and_placeholder.1 env0 ⟨none⟩ rfl,
   c8_skip_and_placeholder.2 env0 "" [some sysMsg] [] noRoleMsg rfl⟩

/-- A link entry renders no line exactly when it is null or lacks a truthy url. -/
theorem renderLink_eq_none (l : Option Link) (h : linkHasUrl l = false) :
    renderLink l = none := by
  cases l with
  | none => rfl
  | some link =>
    cases hu : link.url with
    | none => simp [renderLink, hu]
    | some u =>
      simp [linkHasUrl, hu] at h
      simp [renderLink, hu, h]

/-- C10: for a message whose links array is non-empty but in which every entry
lacks a url, the renderer emits the links marker and zero link lines; the
marker's presence depends only on the array being non-empty. -/
theorem c10_links_marker_only (msg : Msg)
    (hne : msg.links ≠ []) (hall : ∀ l ∈ msg.links, linkHasUrl l = false) :
    linkSegs msg = [Seg.linksMarker] ∧ msg.links.filterMap renderLink = [] := by
  have hmap : msg.links.filterMap renderLink = [] := by
    rw [List.filterMap_eq_nil_iff]
    intro l hl
    exact renderLink_eq_none l (hall l hl)
  refine ⟨?_, hmap⟩
  have hlen : msg.links.length > 0 := List.length_pos.mpr hne
  simp [linkSegs, hlen, hmap]

/-- A message whose two link entries are a null entry and a url-less entry,
used by the C10 witness. -/
def noUrlMsg : Msg :=
  ⟨some "user", some "hi", none, none, 0, 0, [some ⟨some "Docs", none⟩, none], none⟩

/-- Witness for C10 at a concrete message. -/
theorem c10_witness :
    linkSegs noUrlMsg = [Seg.linksMarker] ∧ noUrlMsg.links.filterMap renderLink = [] :=
  c10_links_marker_only noUrlMsg (by decide) (by decide)

/-- C7: the Format-B adapter degrades to zero sessions with a signaled warning,
without any exception reaching the adapter boundary, both for a zip archive
containing no JSON entry and for a JSON payload lacking a `log` array. -/
theorem c7_cherry_degrades (now : Int) (dt : String) (entries : List ZipEntry) (p : Payload) :
    ((∀ e ∈ entries, isJsonEntry e = false) →
      parseCherryInner now dt (CherryInput.zipArchive entries) =
        Except.ok ([], ["No JSON file found in ZIP"]) ∧
      parseCherryStudio now dt (CherryInput.zipArchive entries) =
        ([], ["No JSON file found in ZIP"])) ∧
    (p.log = none →
      parseCherryInner now dt (CherryInput.jsonFile (some p)) =
        Except.ok ([], ["Could not find log array in the parsed Cherry Studio JSON data"]) ∧
      parseCherryStudio now dt (CherryInput.jsonFile (some p)) =
        ([], ["Could not find log array in the parsed Cherry Studio JSON data"])) := by
  constructor
  · intro h
    have hfind : entries.find? isJsonEntry = none := by
      rw [List.find?_eq_none]
      intro e he
      simp [h e he]
    constructor
    · simp [parseCherryInner, hfind]
    · simp [parseCherryStudio, parseCherryInner, hfind]
  · intro h
    constructor
    · simp [parseCherryInner, cherryFromPayload, h]
    · simp [parseCherryStudio, parseCherryInner, cherryFromPayload, h]

/-- Witness for C7: a zip whose only entries are a text file and a directory,
and a payload with a title but no log array. -/
theorem c7_witness :
    (parseCherryInner 100 "export" (CherryInput.zipArchive
        [⟨"readme.txt", false, none⟩, ⟨"data.json", true, none⟩]) =
      Except.ok ([], ["No JSON file found in ZIP"]) ∧
     parseCherryStudio 100 "export" (CherryInput.zipArchive
        [⟨"readme.txt", false, none⟩, ⟨"data.json", true, none⟩]) =
      ([], ["No JSON file found in ZIP"])) ∧
    (parseCherryInner 100 "export" (CherryInput.jsonFile (some ⟨some "T", none⟩)) =
      Except.ok ([], ["Could not find log array in the parsed Cherry Studio JSON data"]) ∧
     parseCherryStudio 100 "export" (CherryInput.jsonFile (some ⟨some "T", none⟩)) =
      ([], ["Could not find log array in the parsed Cherry Studio JSON data"])) :=
  ⟨(c7_cherry_degrades 100 "export"
      [⟨"readme.txt", false, none⟩, ⟨"data.json", true, none⟩] ⟨some "T", none⟩).1
      (by decide),
   (c7_cherry_degrades 100 "export"
      [⟨"readme.txt", false, none⟩, ⟨"data.json", true, none⟩] ⟨some "T", none⟩).2 rfl⟩

/-- C6 counterexample: at current time 100, a log entry with the future
timestamp 200 is stored with instant 200, although `isValidTimestamp` classes
200 as invalid and the section-4.1 normalizer `getSafeTimestamp` maps it to the
current time 100 — so the adapter's stored timestamp is not normalized; and a
log entry with an unparsable timestamp produces no Message at all: the
`toISOString` error aborts the mapping and the adapter's catch yields zero
sessions instead of one message with a normalized timestamp. -/
theorem c6_counterexample :
    cherryEntryToMsg 100 ⟨some "You", some "hi", some (RawTs.millis 200)⟩ =
      Except.ok (mkCherryMsg "user" "hi" 200) ∧
    isValidTimestamp 100 (RawTs.millis 200) = false ∧
    getSafeTimestamp 100 (RawTs.millis 200) = RawTs.millis 100 ∧
    mkCherryMsg "user" "hi" 200 ≠ mkCherryMsg "user" "hi" 100 ∧
    cherryEntryToMsg 100 ⟨some "user", some "hi", some RawTs.unparsable⟩ =
      Except.error "Invalid time value" ∧
    parseCherryStudio 100 "t" (CherryInput.jsonFile
        (some ⟨none, some [⟨some "user", some "hi", some RawTs.unparsable⟩]⟩)) =
      ([], ["Invalid time value"]) := by
  refine ⟨rfl, by decide, by decide, by decide, rfl, rfl⟩

/-- C6 (amended): for every log entry the adapter's role is `user` when the
lowercased role (defaulting to `unknown` when missing or empty) equals the
alias `you` and the lowercased role as-is otherwise, and the content is taken
verbatim (defaulting to empty). The timestamp is parsed but not normalized at
the adapter: a present, truthy timestamp parsing to instant `d` is stored as
the ISO form of `d` itself, even in the future — the section-4.1 check is
applied later, at render time; a missing or falsy timestamp becomes the current
time; a present, truthy but unparsable timestamp makes `toISOString` throw, and
the catch at the adapter boundary turns the error into zero sessions. -/
theorem c6_cherry_entry_mapping (now : Int) (e : LogEntry) :
    (∀ (t : RawTs) (d : Int), e.timestamp = some t → rawTruthy t = true →
      parseRaw t = some d →
      cherryEntryToMsg now e =
        Except.ok (mkCherryMsg
          (if lowerStr (strOr e.role "unknown") = "you" then "user"
           else lowerStr (strOr e.role "unknown"))
          (strOr e.content "") d)) ∧
    (e.timestamp = none →
      cherryEntryToMsg now e =
        Except.ok (mkCherryMsg
          (if lowerStr (strOr e.role "unknown") = "you" then "user"
           else lowerStr (strOr e.role "unknown"))
          (strOr e.content "") now)) ∧
    (∀ t : RawTs, e.timestamp = some t → rawTruthy t = false →
      cherryEntryToMsg now e =
        Except.ok (mkCherryMsg
          (if lowerStr (strOr e.role "unknown") = "you" then "user"
           else lowerStr (strOr e.role "unknown"))
          (strOr e.content "") now)) ∧
    (∀ t : RawTs, e.timestamp = some t → rawTruthy t = true → parseRaw t = none →
      cherryEntryToMsg now e = Except.error "Invalid time value") ∧
    (∀ (dt : String) (p : Payload) (entries : List LogEntry) (err : String),
      p.log = some entries → entries.mapM (cherryEntryToMsg now) = Except.error err →
      parseCherryStudio now dt (CherryInput.jsonFile (some p)) = ([], [err])) := by
  refine ⟨?_, ?_, ?_, ?_, ?_⟩
  · intro t d ht htr hp
    simp [cherryEntryToMsg, ht, htr, hp, cherryRole]
  · intro ht
    simp [cherryEntryToMsg, ht, cherryRole]
  · intro t ht htr
    simp [cherryEntryToMsg, ht, htr, cherryRole]
  · intro t ht htr hp
    simp [cherryEntryToMsg, ht, htr, hp]
  · intro dt p entries err hlog hmap
    have h1 : parseCherryInner now dt (CherryInput.jsonFile (some p)) = Except.error err := by
      simp only [parseCherryInner, cherryFromPayload, hlog, hmap]
    unfold parseCherryStudio
    rw [h1]

/-- Witness for C6, exercising every arm at concrete entries: a valid
timestamp with the role alias, a missing timestamp, a falsy timestamp 0, an
unparsable timestamp, and the whole-adapter catch on the unparsable entry. -/
theorem c6_witness :
    cherryEntryToMsg 100 ⟨some "You", some "hello", some (RawTs.dateStr 7)⟩ =
      Except.ok (mkCherryMsg
        (if lowerStr (strOr (some "You") "unknown") = "you" then "user"
         else lowerStr (strOr (some "You") "unknown"))
        (strOr (some "hello") "") 7) ∧
    cherryEntryToMsg 100 ⟨some "Assistant", some "a", none⟩ =
      Except.ok (mkCherryMsg
        (if lowerStr (strOr (some "Assistant") "unknown") = "you" then "user"
         else lowerStr (strOr (some "Assistant") "unknown"))
        (strOr (some "a") "") 100) ∧
    cherryEntryToMsg 100 ⟨some "user", none, some (RawTs.millis 0)⟩ =
      Except.ok (mkCherryMsg
        (if lowerStr (strOr (some "user") "unknown") = "you" then "user"
         else lowerStr (strOr (some "user") "unknown"))
        (strOr none "") 100) ∧
    cherryEntryToMsg 100 ⟨none, some "x", some RawTs.unparsable⟩ =
      Except.error "Invalid time value" ∧
    parseCherryStudio 100 "t" (CherryInput.jsonFile
        (some ⟨none, some [⟨none, some "x", some RawTs.unparsable⟩]⟩)) =
      ([], ["Invalid time value"]) :=
  ⟨(c6_cherry_entry_mapping 100 ⟨some "You", some "hello", some (RawTs.dateStr 7)⟩).1
      (RawTs.dateStr 7) 7 rfl rfl rfl,
   (c6_cherry_entry_mapping 100 ⟨some "Assistant", some "a", none⟩).2.1 rfl,
   (c6_cherry_entry_mapping 100 ⟨some "user", none, some (RawTs.millis 0)⟩).2.2.1
      (RawTs.millis 0) rfl (by decide),
   (c6_cherry_entry_mapping 100 ⟨none, some "x", some RawTs.unparsable⟩).2.2.2.1
      RawTs.unparsable rfl rfl rfl,
   (c6_cherry_entry_mapping 100 ⟨none, some "x", some RawTs.unparsable⟩).2.2.2.2
      "t" ⟨none, some [⟨none, some "x", some RawTs.unparsable⟩]⟩
      [⟨none, some "x", some RawTs.unparsable⟩] "Invalid time value" rfl rfl⟩

/-- Concrete clock and calendar used for the C2 evaluation: every instant falls
on 2024-03-01 at 10:15, and the current time is 100. -/
def env2 : Env := ⟨100, fun _ => 2024, fun _ => 2, fun _ => 1, fun _ => 10, fun _ => 15⟩

/-- The single-message list used by the C2 evaluation. -/
def c2msgs : List Msg := [⟨some "user", some "hi", some (RawTs.millis 5), none, 0, 0, [], none⟩]

/-- C2: at the same session — title `(x)`, one message with a valid timestamp —
the earlier script's `main` builds the file name with `sanitizeFileName` as the
claim states (parentheses replaced, underscores trimmed), while the
`saveChatsToMarkdown` stub of convert.js keeps the parentheses because its
inline regex replaces only `[<>:"/\\|?*.\s]` and never collapses or trims. -/
theorem c2_filename_stub_divergence :
    buildFileName env2 ⟨some "(x)", none, c2msgs⟩ = "2024-03-01_1015_x.md" ∧
    saveChatsFileName env2 "(x)" c2msgs = "2024-03-01_1015_(x).md" ∧
    buildFileName env2 ⟨some "(x)", none, c2msgs⟩ ≠ saveChatsFileName env2 "(x)" c2msgs := by
  refine ⟨by decide, by decide, by decide⟩

/-- Date headings distribute over concatenation of segment lists. -/
theorem dateHeadings_append (a b : List Seg) :
    dateHeadings (a ++ b) = dateHeadings a ++ dateHeadings b := by
  simp [dateHeadings]

/-- A rendered link line is never a date heading. -/
theorem isDateHeading_renderLink (ol : Option Link) (s : Seg)
    (h : renderLink ol = some s) : isDateHeading s = false := by
  cases ol with
  | none => cases h
  | some l =>
    cases hu : l.url with
    | none => simp [renderLink, hu] at h
    | some u =>
      simp only [renderLink, hu] at h
      split at h
      · cases h
      · cases h; rfl

/-- A rendered web-search link line is never a date heading. -/
theorem isDateHeading_renderWebLink (ol : Option Link) (s : Seg)
    (h : renderWebLink ol = some s) : isDateHeading s = false := by
  cases ol with
  | none => cases h
  | some l =>
    cases hu : l.url with
    | none => simp [renderWebLink, hu] at h
    | some u =>
      simp only [renderWebLink, hu] at h
      split at h
      · cases h
      · cases h; rfl

/-- A segment list containing no date heading contributes no date. -/
theorem dateHeadings_eq_nil_of (segs : List Seg)
    (h : ∀ s ∈ segs, isDateHeading s = false) : dateHeadings segs = [] := by
  induction segs with
  | nil => rfl
  | cons a rest ih =>
    have ha := h a (List.mem_cons_self a rest)
    have hr := ih (fun s hs => h s (List.mem_cons_of_mem a hs))
    cases a <;> simp_all [dateHeadings, isDateHeading]

/-- The body of a message contains no date heading. -/
theorem dateHeadings_msgBody (env : Env) (msg : Msg) (r : String) :
    dateHeadings (msgBody env msg r) = [] := by
  apply dateHeadings_eq_nil_of
  intro s hs
  by_cases hr : upperStr r = "SYSTEM"
  · simp [msgBody, hr] at hs
    subst hs; rfl
  · simp only [msgBody, if_neg hr, List.mem_cons, List.mem_append] at hs
    rcases hs with h | h | ((h | h) | h) | h
    · subst h; rfl
    · subst h; rfl
    · unfold picSegs at h
      split at h <;> simp_all
      subst h; rfl
    · unfold fileSegs at h
      split at h <;> simp_all
      subst h; rfl
    · unfold linkSegs at h
      split at h
      · rcases List.mem_cons.mp h with h1 | h1
        · subst h1; rfl
        · rcases List.mem_filterMap.mp h1 with ⟨a, _, ha⟩
          exact isDateHeading_renderLink a s ha
      · simp at h
    · unfold webSegs at h
      cases hw : msg.webBrowsing with
      | none => simp [hw] at h
      | some ls =>
        rw [hw] at h
        dsimp only at h
        by_cases hlen : ls.length > 0
        · rw [if_pos hlen] at h
          rcases List.mem_cons.mp h with h1 | h1
          · subst h1; rfl
          · rcases List.mem_filterMap.mp h1 with ⟨a, _, ha⟩
            exact isDateHeading_renderWebLink a s ha
        · rw [if_neg hlen] at h
          simp at h

/-- The date headings emitted by the renderer are exactly the dates at which a
message's date differs from the last-seen-date cursor. -/
theorem dateHeadings_renderMsgs (env : Env) (msgs : List (Option Msg)) :
    ∀ last, dateHeadings (renderMsgs env last msgs) = changeList last (datesOf env msgs) := by
  induction msgs with
  | nil => intro last; rfl
  | cons m rest ih =>
    intro last
    cases m with
    | none =>
      have h2 : datesOf env (none :: rest) = datesOf env rest := by
        simp [datesOf, validMsgs]
      rw [show renderMsgs env last (none :: rest) = renderMsgs env last rest from rfl,
        h2, ih last]
    | some msg =>
      cases hrole : msg.role with
      | none =>
        have h1 : renderMsgs env last (some msg :: rest) = renderMsgs env last rest := by
          simp [renderMsgs, hrole]
        have h2 : datesOf env (some msg :: rest) = datesOf env rest := by
          simp [datesOf, validMsgs, List.filterMap_cons, hrole]
        rw [h1, h2, ih last]
      | some r =>
        have h2 : datesOf env (some msg :: rest) = msgDate env msg :: datesOf env rest := by
          simp [datesOf, validMsgs, List.filterMap_cons, hrole]
        rw [h2]
        have hsep : dateHeadings [Seg.msgSep] = [] := rfl
        by_cases hd : msgDate env msg = last
        · have h1 : renderMsgs env last (some msg :: rest) =
              msgBody env msg r ++ [Seg.msgSep] ++ renderMsgs env last rest := by
            simp [renderMsgs, hrole, hd]
          rw [h1, dateHeadings_append, dateHeadings_append, dateHeadings_msgBody, hsep,
            ih last]
          simp [changeList, hd]
        · have h1 : renderMsgs env last (some msg :: rest) =
              Seg.dateHeading (msgDate env msg) ::
                (msgBody env msg r ++ [Seg.msgSep] ++ renderMsgs env (msgDate env msg) rest) := by
            simp [renderMsgs, hrole, hd]
          rw [h1]
          have h3 : dateHeadings (Seg.dateHeading (msgDate env msg) ::
              (msgBody env msg r ++ [Seg.msgSep] ++ renderMsgs env (msgDate env msg) rest)) =
              msgDate env msg :: dateHeadings
                (msgBody env msg r ++ [Seg.msgSep] ++ renderMsgs env (msgDate env msg) rest) := by
            simp [dateHeadings]
          rw [h3, dateHeadings_append, dateHeadings_append, dateHeadings_msgBody, hsep,
            ih (msgDate env msg)]
          simp [changeList, hd]

/-- A run of the cursor's own date emits no heading. -/
theorem changeList_replicate_same (d : String) (n : Nat) (t : List String) :
    changeList d (List.replicate n d ++ t) = changeList d t := by
  induction n with
  | zero => rfl
  | succ k ih => simp [List.replicate_succ, changeList, ih]

/-- Entering a run of a new date emits exactly one heading for it. -/
theorem changeList_replicate_enter (x d : String) (hdx : d ≠ x) (n : Nat) (hn : 0 < n)
    (t : List String) :
    changeList x (List.replicate n d ++ t) = d :: changeList d t := by
  cases n with
  | zero => exact absurd hn (lt_irrefl 0)
  | succ k =>
    simp [List.replicate_succ, changeList, hdx, changeList_replicate_same]

/-- A single trailing run of a new date emits exactly its heading. -/
theorem changeList_replicate_only (x d : String) (hdx : d ≠ x) (n : Nat) (hn : 0 < n) :
    changeList x (List.replicate n d) = [d] := by
  have h := changeList_replicate_enter x d hdx n hn []
  simpa using h

/-- C4 (amended): for a session whose rendered messages' dates form two
contiguous runs of two distinct dates (each non-empty, the first non-blank),
the renderer emits exactly two date headings, in order of first occurrence. -/
theorem c4_two_date_headings (env : Env) (msgs : List (Option Msg)) (a b : Nat)
    (d1 d2 : String) (ha : 0 < a) (hb : 0 < b) (h1 : d1 ≠ "") (h21 : d2 ≠ d1)
    (hd : datesOf env msgs = List.replicate a d1 ++ List.replicate b d2) :
    dateHeadings (renderMsgs env "" msgs) = [d1, d2] := by
  rw [dateHeadings_renderMsgs env msgs "", hd,
    changeList_replicate_enter "" d1 h1 a ha,
    changeList_replicate_only d1 d2 h21 b hb]

/-- A user message carrying the given numeric timestamp, for the C4 sessions. -/
def c4msg (n : Int) : Msg := ⟨some "user", some "m", some (RawTs.millis n), none, 0, 0, [], none⟩

/-- Two messages on two distinct dates, in date order. -/
def c4msgs : List (Option Msg) := [some (c4msg 3), some (c4msg 4)]

/-- Three messages alternating between the same two dates. -/
def c4msgsAlt : List (Option Msg) := [some (c4msg 3), some (c4msg 4), some (c4msg 3)]

/-- Witness for C4 at a concrete two-date session. -/
theorem c4_witness :
    dateHeadings (renderMsgs env0 "" c4msgs) = ["2003-01-03", "2004-01-04"] :=
  c4_two_date_headings env0 c4msgs 1 1 "2003-01-03" "2004-01-04"
    (by decide) (by decide) (by decide) (by decide) (by decide)

/-- C4 counterexample: a session whose messages fall on exactly two distinct
calendar dates but alternate between them renders three date headings, not
two — the heading count follows the cursor changes, not the number of distinct
dates. -/
theorem c4_counterexample :
    datesOf env0 c4msgsAlt = ["2003-01-03", "2004-01-04", "2003-01-03"] ∧
    ("2003-01-03" : String) ≠ "2004-01-04" ∧
    dateHeadings (renderMsgs env0 "" c4msgsAlt) =
      ["2003-01-03", "2004-01-04", "2003-01-03"] ∧
    (dateHeadings (renderMsgs env0 "" c4msgsAlt)).length ≠ 2 := by
  refine ⟨by decide, by decide, by decide, by decide⟩

/-- Every character surviving the replace step is in the kept class. -/
theorem mem_replaceInvalid_valid (l : List Char) :
    ∀ c ∈ replaceInvalid l, validChar c = true := by
  intro c hc
  rcases List.mem_map.mp hc with ⟨a, _, rfl⟩
  by_cases h : validChar a = true
  · rw [if_pos h]; exact h
  · rw [if_neg h]; decide

/-- The replace step is the identity on strings of kept characters. -/
theorem replaceInvalid_of_valid :
    ∀ l : List Char, (∀ c ∈ l, validChar c = true) → replaceInvalid l = l := by
  intro l
  induction l with
  | nil => intro _; rfl
  | cons a rest ih =>
    intro h
    have ha := h a (List.mem_cons_self a rest)
    show (if validChar a = true then a else '_') :: replaceInvalid rest = a :: rest
    rw [if_pos ha, ih (fun c hc => h c (List.mem_cons_of_mem a hc))]

/-- No two adjacent underscores occur in the list. -/
def noAdjU : List Char → Prop
  | [] => True
  | [_] => True
  | a :: b :: rest => ¬(a = '_' ∧ b = '_') ∧ noAdjU (b :: rest)

/-- The property passes to the tail. -/
theorem noAdjU_tail (a : Char) (t : List Char) (h : noAdjU (a :: t)) : noAdjU t := by
  cases t with
  | nil => trivial
  | cons b r => exact h.2

/-- Collapsing keeps the head of a non-empty list. -/
theorem collapseU_cons_head :
    ∀ (xs : List Char) (x : Char), ∃ t, collapseU (x :: xs) = x :: t := by
  intro xs
  induction xs with
  | nil => intro x; exact ⟨[], rfl⟩
  | cons d rest ih =>
    intro x
    by_cases h : x = '_' ∧ d = '_'
    · rcases ih d with ⟨t, ht⟩
      refine ⟨t, ?_⟩
      have hc : collapseU (x :: d :: rest) = collapseU (d :: rest) := by
        simp [collapseU, h]
      rw [hc, ht, h.1, h.2]
    · exact ⟨collapseU (d :: rest), by simp [collapseU, h]⟩

/-- Collapsing underscore runs leaves no adjacent underscores. -/
theorem noAdjU_collapseU : ∀ l : List Char, noAdjU (collapseU l) := by
  intro l
  induction l with
  | nil => trivial
  | cons a rest ih =>
    cases rest with
    | nil => trivial
    | cons b r2 =>
      by_cases h : a = '_' ∧ b = '_'
      · have hc : collapseU (a :: b :: r2) = collapseU (b :: r2) := by simp [collapseU, h]
        rw [hc]; exact ih
      · rcases collapseU_cons_head r2 b with ⟨t, ht⟩
        have hc : collapseU (a :: b :: r2) = a :: collapseU (b :: r2) := by
          simp [collapseU, h]
        rw [hc, ht]
        exact ⟨fun hab => h hab, by rw [← ht]; exact ih⟩

/-- Collapsing is the identity when there are no adjacent underscores. -/
theorem collapseU_of_noAdjU : ∀ l : List Char, noAdjU l → collapseU l = l := by
  intro l
  induction l with
  | nil => intro _; rfl
  | cons a rest ih =>
    intro h
    cases rest with
    | nil => rfl
    | cons b r2 =>
      have hc : collapseU (a :: b :: r2) = a :: collapseU (b :: r2) := by
        simp [collapseU, h.1]
      rw [hc, ih h.2]

/-- Collapsing only keeps characters of the input. -/
theorem collapseU_subset : ∀ l : List Char, ∀ c ∈ collapseU l, c ∈ l := by
  intro l
  induction l with
  | nil => intro c hc; simp [collapseU] at hc
  | cons a rest ih =>
    cases rest with
    | nil => intro c hc; simpa [collapseU] using hc
    | cons b r2 =>
      intro c hc
      by_cases h : a = '_' ∧ b = '_'
      · rw [show collapseU (a :: b :: r2) = collapseU (b :: r2) from by simp [collapseU, h]] at hc
        exact List.mem_cons_of_mem a (ih c hc)
      · rw [show collapseU (a :: b :: r2) = a :: collapseU (b :: r2) from by
          simp [collapseU, h]] at hc
        rcases List.mem_cons.mp hc with rfl | h1
        · exact List.mem_cons_self _ _
        · exact List.mem_cons_of_mem a (ih c h1)

/-- Taking a prefix preserves the absence of adjacent underscores. -/
theorem noAdjU_take : ∀ (l : List Char) (n : Nat), noAdjU l → noAdjU (l.take n) := by
  intro l
  induction l with
  | nil =>
    intro n _
    rw [List.take_nil]
    trivial
  | cons a rest ih =>
    intro n h
    cases n with
    | zero => trivial
    | succ m =>
      cases rest with
      | nil =>
        show noAdjU (a :: List.take m [])
        rw [List.take_nil]
        trivial
      | cons b r2 =>
        cases m with
        | zero => trivial
        | succ k =>
          exact ⟨h.1, ih (k + 1) h.2⟩

/-- Dropping a prefix by a predicate preserves the absence of adjacent
underscores. -/
theorem noAdjU_dropWhile (p : Char → Bool) :
    ∀ l : List Char, noAdjU l → noAdjU (l.dropWhile p) := by
  intro l
  induction l with
  | nil => intro _; trivial
  | cons a rest ih =>
    intro h
    rw [List.dropWhile_cons]
    by_cases hp : p a = true
    · rw [if_pos hp]; exact ih (noAdjU_tail a rest h)
    · rw [if_neg hp]; exact h

/-- The trailing-underscore trimmer either empties a list or keeps its head. -/
theorem dropTrailU_shape (x : Char) (xs : List Char) :
    dropTrailU (x :: xs) = [] ∨ dropTrailU (x :: xs) = x :: dropTrailU xs := by
  by_cases h : dropTrailU xs = [] ∧ x = '_'
  · left; simp [dropTrailU, h]
  · right; simp [dropTrailU, h]

/-- The trailing-underscore trimmer only keeps characters of the input. -/
theorem dropTrailU_subset : ∀ l : List Char, ∀ c ∈ dropTrailU l, c ∈ l := by
  intro l
  induction l with
  | nil => intro c hc; simp [dropTrailU] at hc
  | cons a rest ih =>
    intro c hc
    rcases dropTrailU_shape a rest with h | h <;> rw [h] at hc
    · simp at hc
    · rcases List.mem_cons.mp hc with rfl | h1
      · exact List.mem_cons_self _ _
      · exact List.mem_cons_of_mem a (ih c h1)

/-- The trailing-underscore trimmer preserves the absence of adjacent
underscores. -/
theorem noAdjU_dropTrailU : ∀ l : List Char, noAdjU l → noAdjU (dropTrailU l) := by
  intro l
  induction l with
  | nil => intro _; trivial
  | cons a rest ih =>
    intro h
    rcases dropTrailU_shape a rest with hs | hs <;> rw [hs]
    · trivial
    · have hr : noAdjU (dropTrailU rest) := ih (noAdjU_tail a rest h)
      cases hd : dropTrailU rest with
      | nil => trivial
      | cons b t =>
        cases rest with
        | nil => simp [dropTrailU] at hd
        | cons c2 r2 =>
          rcases dropTrailU_shape c2 r2 with h1 | h1 <;> rw [h1] at hd
          · simp at hd
          · injection hd with hb ht
            constructor
            · rw [← hb]; exact h.1
            · rw [h1, hb, ht] at hr; exact hr

/-- Whether a list ends with an underscore. -/
def lastIsU : List Char → Bool
  | [] => false
  | [c] => c == '_'
  | _ :: c :: rest => lastIsU (c :: rest)

/-- The last character of a list with at least two elements is that of its
tail. -/
theorem lastIsU_cons_cons (a b : Char) (t : List Char) :
    lastIsU (a :: b :: t) = lastIsU (b :: t) := rfl

/-- Trimming trailing underscores leaves no trailing underscore. -/
theorem dropTrailU_lastIsU : ∀ l : List Char, lastIsU (dropTrailU l) = false := by
  intro l
  induction l with
  | nil => rfl
  | cons a rest ih =>
    by_cases h : dropTrailU rest = [] ∧ a = '_'
    · rw [show dropTrailU (a :: rest) = [] from by simp [dropTrailU, h]]
      rfl
    · have hs : dropTrailU (a :: rest) = a :: dropTrailU rest := by simp [dropTrailU, h]
      rw [hs]
      cases hd : dropTrailU rest with
      | nil =>
        have ha : ¬(a = '_') := fun he => h ⟨hd, he⟩
        simp [lastIsU, ha]
      | cons b t =>
        rw [lastIsU_cons_cons, ← hd]
        exact ih

/-- Trimming trailing underscores is the identity when there is none. -/
theorem dropTrailU_of_lastIsU_false :
    ∀ l : List Char, lastIsU l = false → dropTrailU l = l := by
  intro l
  induction l with
  | nil => intro _; rfl
  | cons a rest ih =>
    intro h
    cases rest with
    | nil =>
      have ha : ¬(a = '_') := by
        have h2 : (a == '_') = false := h
        simpa using h2
      simp [dropTrailU, ha]
    | cons b r2 =>
      have h2 : lastIsU (b :: r2) = false := h
      have hr := ih h2
      have hne : ¬(dropTrailU (b :: r2) = [] ∧ a = '_') := by
        rw [hr]; intro hc; exact List.cons_ne_nil b r2 hc.1
      have hstep : dropTrailU (a :: b :: r2) =
          (if dropTrailU (b :: r2) = [] ∧ a = '_' then [] else a :: dropTrailU (b :: r2)) := rfl
      rw [hstep, if_neg hne, hr]

/-- Whether a list starts with an underscore. -/
def firstIsU : List Char → Bool
  | [] => false
  | c :: _ => c == '_'

/-- Dropping leading underscores leaves no leading underscore. -/
theorem dropLeadU_firstIsU : ∀ l : List Char, firstIsU (dropLeadU l) = false := by
  intro l
  induction l with
  | nil => rfl
  | cons a rest ih =>
    rw [dropLeadU, List.dropWhile_cons]
    by_cases hp : (a == '_') = true
    · rw [if_pos hp]; exact ih
    · rw [if_neg hp]
      show (a == '_') = false
      exact Bool.eq_false_iff.mpr hp

/-- Trimming trailing underscores preserves the absence of a leading one. -/
theorem firstIsU_dropTrailU (l : List Char) (h : firstIsU l = false) :
    firstIsU (dropTrailU l) = false := by
  cases l with
  | nil => rfl
  | cons x xs =>
    rcases dropTrailU_shape x xs with hs | hs <;> rw [hs]
    · rfl
    · exact h

/-- Taking a prefix preserves the absence of a leading underscore. -/
theorem firstIsU_take (l : List Char) (n : Nat) (h : firstIsU l = false) :
    firstIsU (l.take n) = false := by
  cases l with
  | nil => rw [List.take_nil]; exact h
  | cons a rest =>
    cases n with
    | zero => rfl
    | succ m => exact h

/-- Dropping leading underscores is the identity when there is none. -/
theorem dropLeadU_of_firstIsU_false :
    ∀ l : List Char, firstIsU l = false → dropLeadU l = l := by
  intro l h
  cases l with
  | nil => rfl
  | cons a rest =>
    have ha : ¬((a == '_') = true) := by
      have h2 : (a == '_') = false := h
      simp [h2]
    rw [dropLeadU, List.dropWhile_cons, if_neg ha]

/-- Dropping leading underscores only keeps characters of the input. -/
theorem dropLeadU_subset : ∀ l : List Char, ∀ c ∈ dropLeadU l, c ∈ l := by
  intro l
  induction l with
  | nil => intro c hc; simp [dropLeadU] at hc
  | cons a rest ih =>
    intro c hc
    rw [dropLeadU, List.dropWhile_cons] at hc
    by_cases hp : (a == '_') = true
    · rw [if_pos hp] at hc
      exact List.mem_cons_of_mem a (ih c hc)
    · rw [if_neg hp] at hc
      exact hc

/-- Every character of the sanitized core is in the kept class. -/
theorem sanitizeCore_valid (l : List Char) : ∀ c ∈ sanitizeCore l, validChar c = true := by
  intro c hc
  have h1 := dropTrailU_subset (dropLeadU (collapseU (replaceInvalid l))) c hc
  have h2 := dropLeadU_subset (collapseU (replaceInvalid l)) c h1
  have h3 := collapseU_subset (replaceInvalid l) c h2
  exact mem_replaceInvalid_valid l c h3

/-- The sanitized core has no adjacent underscores. -/
theorem sanitizeCore_noAdjU (l : List Char) : noAdjU (sanitizeCore l) :=
  noAdjU_dropTrailU _ (noAdjU_dropWhile _ _ (noAdjU_collapseU _))

/-- The sanitized core does not start with an underscore. -/
theorem sanitizeCore_firstIsU (l : List Char) : firstIsU (sanitizeCore l) = false :=
  firstIsU_dropTrailU _ (dropLeadU_firstIsU _)

/-- The sanitized core does not end with an underscore. -/
theorem sanitizeCore_lastIsU (l : List Char) : lastIsU (sanitizeCore l) = false :=
  dropTrailU_lastIsU _

/-- Truncation only keeps characters of the input. -/
theorem truncateTo_subset (m : Nat) (l : List Char) : ∀ c ∈ truncateTo m l, c ∈ l := by
  intro c hc
  unfold truncateTo at hc
  split at hc
  · exact List.take_subset _ _ hc
  · exact hc

/-- Truncation preserves the absence of adjacent underscores. -/
theorem truncateTo_noAdjU (m : Nat) (l : List Char) (h : noAdjU l) :
    noAdjU (truncateTo m l) := by
  unfold truncateTo
  split
  · exact noAdjU_take l m h
  · exact h

/-- Truncation preserves the absence of a leading underscore. -/
theorem truncateTo_firstIsU (m : Nat) (l : List Char) (h : firstIsU l = false) :
    firstIsU (truncateTo m l) = false := by
  unfold truncateTo
  split
  · exact firstIsU_take l m h
  · exact h

/-- The truncated list fits the maximum length. -/
theorem truncateTo_length_le (m : Nat) (l : List Char) : (truncateTo m l).length ≤ m := by
  unfold truncateTo
  split
  · rw [List.length_take]; exact min_le_left m l.length
  · next h => exact Nat.le_of_not_lt h

/-- Truncation is the identity on lists already within the maximum length. -/
theorem truncateTo_idem (m : Nat) (l : List Char) (h : l.length ≤ m) :
    truncateTo m l = l := by
  unfold truncateTo
  rw [if_neg (Nat.not_lt.mpr h)]

/-- The sanitizer's replace pipeline fixes any list of kept characters with no
adjacent, no leading and no trailing underscore. -/
theorem sanitizeCore_fixed (t : List Char)
    (hv : ∀ c ∈ t, validChar c = true) (hadj : noAdjU t)
    (hfirst : firstIsU t = false) (hlast : lastIsU t = false) :
    sanitizeCore t = t := by
  unfold sanitizeCore trimU
  rw [replaceInvalid_of_valid t hv, collapseU_of_noAdjU t hadj,
    dropLeadU_of_firstIsU_false t hfirst, dropTrailU_of_lastIsU_false t hlast]

/-- A 51-character title: 49 letters, an underscore, one letter. -/
def longTitle : String := String.mk (List.replicate 49 'a' ++ ['_', 'b'])

set_option maxRecDepth 8000 in
/-- C3 counterexample: on the 51-character title above, truncation to 50 cuts
right after the underscore, so the first sanitization ends with `_` and a
second application trims it — `sanitizeFileName` is not idempotent. -/
theorem c3_counterexample :
    sanitizeFileName (sanitizeFileName longTitle 50) 50 ≠ sanitizeFileName longTitle 50 := by
  decide

/-- C3 (amended): `sanitizeFileName` at the default maximum length 50 is
idempotent on every input whose sanitized result does not end with an
underscore; the only inputs violating this are those where truncation to 50
cuts immediately after an underscore. -/
theorem c3_sanitize_idempotent (x : String)
    (h : lastIsU (sanitizeFileName x 50).data = false) :
    sanitizeFileName (sanitizeFileName x 50) 50 = sanitizeFileName x 50 := by
  by_cases he : truncateTo 50 (sanitizeCore x.data) = []
  · have hx : sanitizeFileName x 50 = "unnamed_chat" := by
      unfold sanitizeFileName
      rw [if_pos he]
    rw [hx]
    decide
  · have hx : sanitizeFileName x 50 = String.mk (truncateTo 50 (sanitizeCore x.data)) := by
      unfold sanitizeFileName
      rw [if_neg he]
    have hdata : (sanitizeFileName x 50).data = truncateTo 50 (sanitizeCore x.data) := by
      rw [hx]
    have hv : ∀ c ∈ truncateTo 50 (sanitizeCore x.data), validChar c = true :=
      fun c hc => sanitizeCore_valid x.data c (truncateTo_subset 50 _ c hc)
    have hadj : noAdjU (truncateTo 50 (sanitizeCore x.data)) :=
      truncateTo_noAdjU 50 _ (sanitizeCore_noAdjU x.data)
    have hfirst : firstIsU (truncateTo 50 (sanitizeCore x.data)) = false :=
      truncateTo_firstIsU 50 _ (sanitizeCore_firstIsU x.data)
    have hlast : lastIsU (truncateTo 50 (sanitizeCore x.data)) = false := by
      rw [← hdata]; exact h
    rw [hx]
    unfold sanitizeFileName
    rw [show (String.mk (truncateTo 50 (sanitizeCore x.data))).data =
        truncateTo 50 (sanitizeCore x.data) from rfl]
    rw [sanitizeCore_fixed _ hv hadj hfirst hlast,
      truncateTo_idem 50 _ (truncateTo_length_le 50 _), if_neg he]

/-- Witness for C3 at a concrete input whose sanitized form has no trailing
underscore. -/
theorem c3_witness :
    sanitizeFileName (sanitizeFileName "hello world" 50) 50 =
      sanitizeFileName "hello world" 50 :=
  c3_sanitize_idempotent "hello world" (by decide)

/-- C9: for every input and maximum length, the sanitized file name is
non-empty and no longer than the larger of the maximum length and the
12-character placeholder. -/
theorem c9_sanitize_bounds (x : String) (m : Nat) :
    0 < (sanitizeFileName x m).length ∧ (sanitizeFileName x m).length ≤ max m 12 := by
  unfold sanitizeFileName
  by_cases he : truncateTo m (sanitizeCore x.data) = []
  · rw [if_pos he]
    constructor
    · decide
    · have h12 : ("unnamed_chat" : String).length = 12 := rfl
      rw [h12]
      exact le_max_right m 12
  · rw [if_neg he]
    have hlen : (String.mk (truncateTo m (sanitizeCore x.data))).length =
        (truncateTo m (sanitizeCore x.data)).length := rfl
    rw [hlen]
    constructor
    · exact List.length_pos.mpr he
    · exact le_trans (truncateTo_length_le m _) (le_max_left m 12)
